import Mathlib

/-!
Shallow embedding of src/jobivo_aggregator.py: the in-memory offer store
(the fixed catalog `_fake_jobs` and the two timestamped exclusion dicts
`_saved_jobs`, `_hidden_jobs`) together with the four operations
`list_offers`, `search_offers`, `save_offer`, `hide_offer`.

Python dicts are modelled as association lists (key, value) kept in
insertion order; `datetime` timestamps are integers (seconds), so
`timedelta(days=90)` is the integer `90 * 86400`.  Each operation takes the
current store and the current wall-clock time `now` and returns its
response paired with the updated store.
-/

namespace Jobivo

/-- Job offer record: the seven string fields of the dictionaries in
the catalog and of the JobOffer model. -/
structure Offer where
  id : String
  title : String
  company : String
  location : String
  description : String
  source : String
  url : String
  deriving DecidableEq, Repr

/-- Python dict from offer id to timestamp, as an association list. -/
abbrev ExclusionMap := List (String × Int)

/-- timedelta(days=90) in seconds. -/
def ninetyDays : Int := 90 * 86400

/-- Python membership test: key in dict. -/
def hasKey (m : ExclusionMap) (k : String) : Bool :=
  m.any (fun p => p.1 == k)

/-- Python assignment d[k] = v: overwrite the entry in place when the key
is present, otherwise append a new entry. -/
def setKey (m : ExclusionMap) (k : String) (v : Int) : ExclusionMap :=
  if hasKey m k then m.map (fun p => if p.1 == k then (k, v) else p)
  else m ++ [(k, v)]

/-- The purge loop run at the top of both read operations: first collect
the ids of entries with ts < cutoff, then delete those keys. -/
def purge (m : ExclusionMap) (cutoff : Int) : ExclusionMap :=
  let expired_ids := (m.filter (fun p => decide (p.2 < cutoff))).map Prod.fst
  m.filter (fun p => ! expired_ids.contains p.1)

/-- Python s.lower(): lower-case every character. -/
def lower (s : String) : String :=
  ⟨s.data.map Char.toLower⟩

/-- Python needle in hay for strings: substring containment. -/
def strContains (hay needle : String) : Bool :=
  decide (needle.data <:+: hay.data)

/-- The module-level mutable state: the fixed catalog and the two
exclusion dicts. -/
structure Store where
  catalog : List Offer
  saved : ExclusionMap
  hidden : ExclusionMap
  deriving DecidableEq, Repr

/-- Well-formedness: a Python dict never holds two entries for one key. -/
def Store.WF (s : Store) : Prop :=
  (s.saved.map Prod.fst).Nodup ∧ (s.hidden.map Prod.fst).Nodup

instance (s : Store) : Decidable s.WF :=
  inferInstanceAs (Decidable (_ ∧ _))

/-- Python list slicing l[:limit] for an int limit: nonnegative limits
take a prefix, negative limits drop entries from the end. -/
def pySliceTo (limit : Int) (l : List Offer) : List Offer :=
  if 0 ≤ limit then l.take limit.toNat
  else l.take (l.length - (-limit).toNat)

/-- GET /offers: purge expired entries, filter the catalog, slice. -/
def list_offers (s : Store) (now : Int) (limit : Int) : List Offer × Store :=
  let cutoff := now - ninetyDays
  let saved := purge s.saved cutoff
  let hidden := purge s.hidden cutoff
  let available := s.catalog.filter
    (fun job => !(hasKey saved job.id) && !(hasKey hidden job.id))
  (pySliceTo limit available, ⟨s.catalog, saved, hidden⟩)

/-- GET /search: purge expired entries, filter by exclusion, query and
location, slice.  radius and pensum are accepted and ignored. -/
def search_offers (s : Store) (now : Int) (q loc : String) (radius : Int)
    (pensum : String) (limit : Int) : List Offer × Store :=
  let cutoff := now - ninetyDays
  let saved := purge s.saved cutoff
  let hidden := purge s.hidden cutoff
  let matchesJob := fun (job : Offer) =>
    if hasKey saved job.id || hasKey hidden job.id then false
    else if q != "" &&
        !(strContains (lower job.title ++ " " ++ lower job.description)
          (lower q)) then false
    else if loc != "" && !(strContains (lower job.location) (lower loc)) then
      false
    else true
  let filtered := s.catalog.filter matchesJob
  (pySliceTo limit filtered, ⟨s.catalog, saved, hidden⟩)

/-- POST /save: record the id in the saved dict with the current time. -/
def save_offer (s : Store) (now : Int) (job_id : String) : String × Store :=
  ("Job saved successfully", ⟨s.catalog, setKey s.saved job_id now, s.hidden⟩)

/-- POST /hide: record the id in the hidden dict with the current time. -/
def hide_offer (s : Store) (now : Int) (job_id : String) : String × Store :=
  ("Job hidden successfully", ⟨s.catalog, s.saved, setKey s.hidden job_id now⟩)

/-- Catalog entry number i of the fake catalog. -/
def mkJob (i : Nat) : Offer :=
  { id := "job-" ++ toString i
    title := "Sample Job " ++ toString i
    company := "ExampleCorp"
    location := "Zurich"
    description := "This is a sample job offer."
    source := "demo"
    url := "https://example.com/job-" ++ toString i }

/-- The fixed catalog: jobs 1 through 20. -/
def fake_jobs : List Offer :=
  (List.range 20).map (fun i => mkJob (i + 1))

/-- The startup state: fixed catalog, both exclusion dicts empty. -/
def initStore : Store :=
  ⟨fake_jobs, [], []⟩

/-- The store after the purge step that both reads perform. -/
def purgedStore (s : Store) (now : Int) : Store :=
  ⟨s.catalog, purge s.saved (now - ninetyDays), purge s.hidden (now - ninetyDays)⟩

/-- An id is excluded when it is a key of either exclusion dict. -/
def excludedIn (s : Store) (k : String) : Bool :=
  hasKey s.saved k || hasKey s.hidden k

/-! ### Helper lemmas about the dict operations -/

theorem hasKey_iff {m : ExclusionMap} {k : String} :
    hasKey m k = true ↔ ∃ ts, (k, ts) ∈ m := by
  simp only [hasKey, List.any_eq_true, beq_iff_eq]
  constructor
  · rintro ⟨⟨a, b⟩, hm, rfl⟩
    exact ⟨b, hm⟩
  · rintro ⟨ts, h⟩
    exact ⟨(k, ts), h, rfl⟩

theorem hasKey_eq_false_iff {m : ExclusionMap} {k : String} :
    hasKey m k = false ↔ ∀ ts, (k, ts) ∉ m := by
  rw [← Bool.not_eq_true, hasKey_iff]
  push_neg
  rfl

theorem mem_purge {m : ExclusionMap} {cutoff : Int} {p : String × Int} :
    p ∈ purge m cutoff ↔ p ∈ m ∧ ∀ ts, (p.1, ts) ∈ m → ¬ ts < cutoff := by
  unfold purge
  simp only [List.mem_filter]
  refine and_congr_right fun hp => ?_
  rw [Bool.not_eq_true', ← Bool.not_eq_true, List.contains_iff_exists_mem_beq]
  simp only [List.mem_map, List.mem_filter, beq_iff_eq, decide_eq_true_eq,
    not_exists, not_and]
  constructor
  · intro h ts hts hlt
    exact h p.1 ⟨(p.1, ts), ⟨hts, hlt⟩, rfl⟩ rfl
  · rintro h a ⟨⟨x, y⟩, ⟨hm, hlt⟩, rfl⟩ hax
    exact h y (hax ▸ hm) hlt

theorem purge_subset {m : ExclusionMap} {cutoff : Int} {p : String × Int}
    (h : p ∈ purge m cutoff) : p ∈ m :=
  (mem_purge.mp h).1

theorem not_mem_purge_of_expired {m : ExclusionMap} {cutoff ts : Int}
    {k : String} (h : ts < cutoff) : (k, ts) ∉ purge m cutoff := by
  intro hmem
  rcases mem_purge.mp hmem with ⟨hm, hall⟩
  exact hall ts hm h

theorem hasKey_purge_eq_false {m : ExclusionMap} {cutoff : Int} {k : String}
    (h : ∀ ts, (k, ts) ∈ m → ts < cutoff) : hasKey (purge m cutoff) k = false := by
  rw [hasKey_eq_false_iff]
  intro ts hmem
  rcases mem_purge.mp hmem with ⟨hm, hall⟩
  exact hall ts hm (h ts hm)

theorem mem_purge_of_fresh {m : ExclusionMap} {cutoff ts : Int} {k : String}
    (hnodup : (m.map Prod.fst).Nodup) (hm : (k, ts) ∈ m) (h : ¬ ts < cutoff) :
    (k, ts) ∈ purge m cutoff := by
  rw [mem_purge]
  refine ⟨hm, fun ts' hts' hlt => ?_⟩
  have : (k, ts') = (k, ts) :=
    List.inj_on_of_nodup_map hnodup hts' hm rfl
  rw [Prod.mk.injEq] at this
  exact h (this.2 ▸ hlt)

theorem mem_purge_iff_of_nodup {m : ExclusionMap} {cutoff ts : Int} {k : String}
    (hnodup : (m.map Prod.fst).Nodup) :
    (k, ts) ∈ purge m cutoff ↔ ((k, ts) ∈ m ∧ ¬ ts < cutoff) :=
  ⟨fun h => ⟨purge_subset h, fun hlt => not_mem_purge_of_expired hlt h⟩,
   fun h => mem_purge_of_fresh hnodup h.1 h.2⟩

theorem hasKey_setKey_self (m : ExclusionMap) (k : String) (v : Int) :
    hasKey (setKey m k v) k = true := by
  unfold setKey
  split
  · next h =>
    rcases hasKey_iff.mp h with ⟨ts, hts⟩
    exact hasKey_iff.mpr ⟨v, List.mem_map.mpr ⟨(k, ts), hts, by simp⟩⟩
  · exact hasKey_iff.mpr ⟨v, by simp⟩

theorem val_of_mem_setKey_self {m : ExclusionMap} {k : String} {v ts : Int}
    (h : (k, ts) ∈ setKey m k v) : ts = v := by
  unfold setKey at h
  split at h
  · rcases List.mem_map.mp h with ⟨⟨a, b⟩, hm, heq⟩
    by_cases hab : a = k
    · subst hab
      simp only [if_pos (beq_self_eq_true a)] at heq
      exact (Prod.mk.injEq _ _ _ _ ▸ heq).2.symm
    · rw [if_neg (by simpa using hab)] at heq
      exact absurd (Prod.mk.injEq _ _ _ _ ▸ heq).1 hab
  · rcases List.mem_append.mp h with hm | hm
    · next hk =>
      exact absurd hm (hasKey_eq_false_iff.mp (Bool.not_eq_true _ ▸ hk) ts)
    · simpa using hm

theorem length_setKey_of_hasKey {m : ExclusionMap} {k : String} {v : Int}
    (h : hasKey m k = true) : (setKey m k v).length = m.length := by
  unfold setKey
  rw [if_pos h, List.length_map]

theorem lookup_map_overwrite {k : String} {v : Int} :
    ∀ {m : ExclusionMap}, hasKey m k = true →
      (m.map (fun p => if p.1 == k then (k, v) else p)).lookup k = some v := by
  intro m
  induction m with
  | nil => intro h; simp [hasKey] at h
  | cons p t ih =>
    obtain ⟨a, b⟩ := p
    intro h
    by_cases hpk : a = k
    · simp [List.lookup_cons, hpk]
    · have hp' : (if (a, b).1 == k then (k, v) else (a, b)) = (a, b) := by
        rw [if_neg (by simpa using hpk)]
      have ht : hasKey t k = true := by
        rcases hasKey_iff.mp h with ⟨ts, hts⟩
        rcases List.mem_cons.mp hts with hh | hh
        · exact absurd (congrArg Prod.fst hh.symm) hpk
        · exact hasKey_iff.mpr ⟨ts, hh⟩
      have hkp : (k == a) = false := by
        simpa using fun hc => hpk hc.symm
      simp only [List.map_cons, hp', List.lookup_cons, hkp]
      exact ih ht

theorem lookup_none_of_not_hasKey {m : ExclusionMap} {k : String}
    (h : hasKey m k = false) : m.lookup k = none := by
  rw [List.lookup_eq_none_iff]
  intro p hp
  have := hasKey_eq_false_iff.mp h p.2
  by_cases hpk : k = p.1
  · exact absurd (hpk ▸ hp : (k, p.2) ∈ m) this
  · simpa using hpk

theorem lookup_setKey_self (m : ExclusionMap) (k : String) (v : Int) :
    (setKey m k v).lookup k = some v := by
  unfold setKey
  split
  · next h => exact lookup_map_overwrite h
  · next h =>
    rw [List.lookup_append, lookup_none_of_not_hasKey (Bool.not_eq_true _ ▸ h)]
    simp

theorem lookup_map_ne {k k' : String} {v : Int} (hne : k' ≠ k) :
    ∀ (m : ExclusionMap),
      (m.map (fun p => if p.1 == k then (k, v) else p)).lookup k' = m.lookup k' := by
  intro m
  induction m with
  | nil => rfl
  | cons p t ih =>
    obtain ⟨a, b⟩ := p
    by_cases hpk : a = k
    · have h1 : (if (a, b).1 == k then (k, v) else (a, b)) = (k, v) := by
        rw [if_pos (by simpa using hpk)]
      have h2 : (k' == k) = false := by simpa using hne
      have h3 : (k' == a) = false := by simpa using hpk ▸ hne
      simp only [List.map_cons, h1, List.lookup_cons, h2, h3]
      exact ih
    · have h1 : (if (a, b).1 == k then (k, v) else (a, b)) = (a, b) := by
        rw [if_neg (by simpa using hpk)]
      simp only [List.map_cons, h1, List.lookup_cons]
      by_cases hkp : k' = a
      · simp [hkp]
      · have h4 : (k' == a) = false := by simpa using hkp
        simp only [h4, Bool.false_eq_true, if_false]
        exact ih

theorem lookup_setKey_ne {m : ExclusionMap} {k k' : String} {v : Int}
    (hne : k' ≠ k) : (setKey m k v).lookup k' = m.lookup k' := by
  unfold setKey
  split
  · exact lookup_map_ne hne m
  · rw [List.lookup_append,
      lookup_none_of_not_hasKey (m := [(k, v)])
        (by simp only [hasKey, List.any_cons, List.any_nil, Bool.or_false,
              beq_iff_eq]
            exact decide_eq_false fun hc => hne hc.symm)]
    simp

theorem pySliceTo_of_nonneg {limit : Int} (h : 0 ≤ limit) (l : List Offer) :
    pySliceTo limit l = l.take limit.toNat := by
  unfold pySliceTo
  rw [if_pos h]

theorem pySliceTo_sublist (limit : Int) (l : List Offer) :
    (pySliceTo limit l).Sublist l := by
  unfold pySliceTo
  split <;> exact List.take_sublist _ _

theorem lower_append (a b : String) : lower (a ++ b) = lower a ++ lower b := by
  show String.mk (((a ++ b).data).map Char.toLower) = String.mk _ ++ String.mk _
  rw [String.data_append, List.map_append]
  rfl

theorem lower_space : lower " " = " " := by decide

theorem bool_if_chain (e b1 c1 b2 c2 : Bool) :
    (if e then false else
      if b1 && !c1 then false else
        if b2 && !c2 then false else true)
      = (!e && (!b1 || c1) && (!b2 || c2)) := by
  cases e <;> cases b1 <;> cases c1 <;> cases b2 <;> cases c2 <;> rfl

theorem hasKey_purge_setKey {m : ExclusionMap} {k : String} {v cutoff : Int}
    (h : ¬ v < cutoff) : hasKey (purge (setKey m k v) cutoff) k = true := by
  rcases hasKey_iff.mp (hasKey_setKey_self m k v) with ⟨ts, hts⟩
  refine hasKey_iff.mpr ⟨ts, mem_purge.mpr ⟨hts, fun ts' hts' => ?_⟩⟩
  rw [val_of_mem_setKey_self hts']
  exact h

theorem available_eq (s : Store) (now : Int) :
    s.catalog.filter
      (fun job => !(hasKey (purge s.saved (now - ninetyDays)) job.id) &&
        !(hasKey (purge s.hidden (now - ninetyDays)) job.id))
    = s.catalog.filter (fun j => !(excludedIn (purgedStore s now) j.id)) :=
  List.filter_congr fun j _ => by
    simp [excludedIn, purgedStore, Bool.not_or]

theorem list_offers_fst_eq (s : Store) (now limit : Int) :
    (list_offers s now limit).1
      = pySliceTo limit
          (s.catalog.filter (fun j => !(excludedIn (purgedStore s now) j.id))) := by
  simp only [list_offers]
  exact congrArg (pySliceTo limit) (available_eq s now)

theorem mem_list_offers {s : Store} {now limit : Int} {job : Offer}
    (h : job ∈ (list_offers s now limit).1) :
    job ∈ s.catalog ∧
      hasKey (purge s.saved (now - ninetyDays)) job.id = false ∧
      hasKey (purge s.hidden (now - ninetyDays)) job.id = false := by
  simp only [list_offers] at h
  have h2 := (pySliceTo_sublist _ _).subset h
  have h3 := List.mem_filter.mp h2
  have h4 := h3.2
  simp only [Bool.and_eq_true, Bool.not_eq_true'] at h4
  exact ⟨h3.1, h4.1, h4.2⟩

/-! ### Claim theorems -/

/-- C1 (amended): for every well-formed store and every nonnegative limit,
list_offers first purges expired exclusion entries (an entry survives in
either mapping exactly when it was there before and its timestamp is not
strictly older than now minus 90 days) and then returns the first `limit`
catalog entries, in catalog order, whose id is a key of neither mapping
after the purge; in particular every returned offer is non-excluded and at
most `limit` offers are returned.  (As literally stated the claim fails:
truncation can drop a non-excluded offer, and a negative limit keeps more
than `limit` entries — see the counterexample.) -/
theorem list_offers_characterization (s : Store) (now limit : Int)
    (hwf : s.WF) (hlim : 0 ≤ limit) :
    ((list_offers s now limit).2 = purgedStore s now) ∧
    (∀ (k : String) (ts : Int),
      ((k, ts) ∈ (list_offers s now limit).2.saved ↔
        ((k, ts) ∈ s.saved ∧ ¬ ts < now - ninetyDays)) ∧
      ((k, ts) ∈ (list_offers s now limit).2.hidden ↔
        ((k, ts) ∈ s.hidden ∧ ¬ ts < now - ninetyDays))) ∧
    (list_offers s now limit).1.Sublist s.catalog ∧
    (list_offers s now limit).1.length ≤ limit.toNat ∧
    (∀ job ∈ (list_offers s now limit).1,
      excludedIn (purgedStore s now) job.id = false) ∧
    ((list_offers s now limit).1 =
      (s.catalog.filter
        (fun j => !(excludedIn (purgedStore s now) j.id))).take limit.toNat) := by
  refine ⟨rfl, ?_, ?_, ?_, ?_, ?_⟩
  · intro k ts
    exact ⟨mem_purge_iff_of_nodup hwf.1, mem_purge_iff_of_nodup hwf.2⟩
  · simp only [list_offers]
    exact (pySliceTo_sublist _ _).trans (List.filter_sublist _)
  · rw [list_offers_fst_eq, pySliceTo_of_nonneg hlim, List.length_take]
    exact Nat.min_le_left _ _
  · intro job hj
    rcases mem_list_offers hj with ⟨_, ha, hb⟩
    simp [excludedIn, purgedStore, ha, hb]
  · rw [list_offers_fst_eq, pySliceTo_of_nonneg hlim]

/-- Witness for C1's theorem at the startup store, time 0, limit 5. -/
theorem list_offers_characterization_witness :
    Store.WF initStore ∧ ((0 : Int) ≤ 5) ∧
    (list_offers initStore 0 5).1.length ≤ (5 : Int).toNat :=
  ⟨by decide, by decide,
    (list_offers_characterization initStore 0 5 (by decide) (by decide)).2.2.2.1⟩

/-- C1 as stated is false: at limit 1 on the default catalog with empty
exclusion state, job-2 is a key of neither mapping after the purge yet does
not appear in the result, so "appears if and only if not excluded" fails. -/
theorem list_offers_iff_counterexample :
    mkJob 2 ∈ initStore.catalog ∧
    excludedIn (list_offers initStore 0 1).2 "job-2" = false ∧
    (mkJob 2).id = "job-2" ∧
    mkJob 2 ∉ (list_offers initStore 0 1).1 := by
  exact ⟨by decide, by decide, rfl, by decide⟩

theorem search_fst_eq (s : Store) (now : Int) (q loc : String) (radius : Int)
    (pensum : String) (limit : Int) :
    (search_offers s now q loc radius pensum limit).1
      = pySliceTo limit (s.catalog.filter (fun job =>
          !(excludedIn (purgedStore s now) job.id) &&
          (q == "" ||
            strContains (lower (job.title ++ " " ++ job.description)) (lower q)) &&
          (loc == "" || strContains (lower job.location) (lower loc)))) := by
  simp only [search_offers]
  refine congrArg (pySliceTo limit) (List.filter_congr fun job _ => ?_)
  rw [bool_if_chain, lower_append, lower_append, lower_space]
  simp [excludedIn, purgedStore, bne, Bool.not_not]

/-- C2 (amended): search purges expired entries and returns the Python
slice of exactly the catalog offers, in catalog order, that are not
excluded and that match the case-insensitive query filter on
title-space-description and the case-insensitive location filter; for a
nonnegative limit this means the first `limit` matching offers.  (As
literally stated the claim fails for a negative limit, which keeps all but
the last entries — see the counterexample.) -/
theorem search_offers_characterization (s : Store) (now limit radius : Int)
    (q loc pensum : String) (hlim : 0 ≤ limit) :
    ((search_offers s now q loc radius pensum limit).2 = purgedStore s now) ∧
    (search_offers s now q loc radius pensum limit).1.Sublist s.catalog ∧
    (search_offers s now q loc radius pensum limit).1.length ≤ limit.toNat ∧
    ((search_offers s now q loc radius pensum limit).1 =
      (s.catalog.filter (fun job =>
        !(excludedIn (purgedStore s now) job.id) &&
        (q == "" ||
          strContains (lower (job.title ++ " " ++ job.description)) (lower q)) &&
        (loc == "" || strContains (lower job.location) (lower loc)))).take
          limit.toNat) ∧
    (∀ job ∈ (search_offers s now q loc radius pensum limit).1,
      excludedIn (purgedStore s now) job.id = false ∧
      (q ≠ "" →
        strContains (lower (job.title ++ " " ++ job.description)) (lower q)
          = true) ∧
      (loc ≠ "" → strContains (lower job.location) (lower loc) = true)) := by
  refine ⟨rfl, ?_, ?_, ?_, ?_⟩
  · simp only [search_offers]
    exact (pySliceTo_sublist _ _).trans (List.filter_sublist _)
  · rw [search_fst_eq, pySliceTo_of_nonneg hlim, List.length_take]
    exact Nat.min_le_left _ _
  · rw [search_fst_eq, pySliceTo_of_nonneg hlim]
  · intro job hj
    rw [search_fst_eq] at hj
    have h2 := (pySliceTo_sublist _ _).subset hj
    have h3 := List.mem_filter.mp h2
    have h4 := h3.2
    simp only [Bool.and_eq_true, Bool.or_eq_true, beq_iff_eq,
      Bool.not_eq_true'] at h4
    obtain ⟨⟨hex, hq⟩, hloc⟩ := h4
    refine ⟨hex, fun hq' => ?_, fun hl' => ?_⟩
    · rcases hq with h | h
      · exact absurd h hq'
      · exact h
    · rcases hloc with h | h
      · exact absurd h hl'
      · exact h

/-- Witness for C2's theorem: query "Sample Job 3" on the startup store. -/
theorem search_offers_characterization_witness :
    ((0 : Int) ≤ 10) ∧
    (search_offers initStore 0 "Sample Job 3" "" 0 "" 10).1.length
      ≤ (10 : Int).toNat :=
  ⟨by decide,
    (search_offers_characterization initStore 0 10 0 "Sample Job 3" "" ""
      (by decide)).2.2.1⟩

/-- C2 as stated is false for a negative limit: search with limit -1 on the
default catalog returns 19 entries, which is not "at most -1". -/
theorem search_limit_counterexample :
    (search_offers initStore 0 "" "" 0 "" (-1)).1.length = 19 ∧
    ¬ (((search_offers initStore 0 "" "" 0 "" (-1)).1.length : Int) ≤ -1) := by
  exact ⟨by decide, by decide⟩

/-- C3: the 90-day expiry has a strict-inequality boundary.  Both reads
perform the same purge.  An entry strictly older than now minus 90 days is
removed from its mapping before filtering, and once every entry for an id
is expired the id is no longer excluded, so each catalog offer with that id
is visible (passes the exclusion filter).  An entry aged exactly 90 days is
retained and the id stays excluded from the result. -/
theorem expiry_boundary (s : Store) (now ts limit radius : Int)
    (k q loc pensum : String) (hwf : s.WF) :
    ((search_offers s now q loc radius pensum limit).2
      = (list_offers s now limit).2) ∧
    (ts < now - ninetyDays →
      (k, ts) ∉ (list_offers s now limit).2.saved ∧
      (k, ts) ∉ (list_offers s now limit).2.hidden) ∧
    ((∀ u, (k, u) ∈ s.saved → u < now - ninetyDays) →
     (∀ u, (k, u) ∈ s.hidden → u < now - ninetyDays) →
      excludedIn (list_offers s now limit).2 k = false ∧
      ∀ job ∈ s.catalog, job.id = k →
        job ∈ s.catalog.filter
          (fun j => !(excludedIn ((list_offers s now limit).2) j.id))) ∧
    (ts = now - ninetyDays →
      ((k, ts) ∈ s.saved → (k, ts) ∈ (list_offers s now limit).2.saved) ∧
      ((k, ts) ∈ s.hidden → (k, ts) ∈ (list_offers s now limit).2.hidden) ∧
      (((k, ts) ∈ s.saved ∨ (k, ts) ∈ s.hidden) →
        ∀ job ∈ (list_offers s now limit).1, job.id ≠ k)) := by
  refine ⟨rfl, ?_, ?_, ?_⟩
  · intro hlt
    exact ⟨not_mem_purge_of_expired hlt, not_mem_purge_of_expired hlt⟩
  · intro hsav hhid
    have ha : hasKey (purge s.saved (now - ninetyDays)) k = false :=
      hasKey_purge_eq_false hsav
    have hb : hasKey (purge s.hidden (now - ninetyDays)) k = false :=
      hasKey_purge_eq_false hhid
    have hex : excludedIn (list_offers s now limit).2 k = false := by
      show (hasKey (purge s.saved (now - ninetyDays)) k ||
            hasKey (purge s.hidden (now - ninetyDays)) k) = false
      rw [ha, hb]
      rfl
    refine ⟨hex, fun job hjob hid => List.mem_filter.mpr ⟨hjob, ?_⟩⟩
    rw [hid, hex]
    rfl
  · intro hts
    have hfresh : ¬ ts < now - ninetyDays := hts ▸ lt_irrefl _
    refine ⟨fun hm => mem_purge_of_fresh hwf.1 hm hfresh,
            fun hm => mem_purge_of_fresh hwf.2 hm hfresh,
            fun hm job hjob hid => ?_⟩
    rcases mem_list_offers hjob with ⟨_, ha, hb⟩
    rcases hm with hm | hm
    · have : hasKey (purge s.saved (now - ninetyDays)) k = true :=
        hasKey_iff.mpr ⟨ts, mem_purge_of_fresh hwf.1 hm hfresh⟩
      rw [hid] at ha
      exact absurd (ha ▸ this) (by simp)
    · have : hasKey (purge s.hidden (now - ninetyDays)) k = true :=
        hasKey_iff.mpr ⟨ts, mem_purge_of_fresh hwf.2 hm hfresh⟩
      rw [hid] at hb
      exact absurd (hb ▸ this) (by simp)

/-- Witness for C3's theorem: a saved entry 91 days old is purged, and the
entry aged exactly 90 days is kept and keeps its offer out of the result. -/
theorem expiry_boundary_witness :
    Store.WF ⟨fake_jobs, [("job-1", 0)], [("job-2", 86400)]⟩ ∧
    ((0 : Int) < 7862400 - ninetyDays) ∧
    (("job-1", (0 : Int)) ∉
      (list_offers ⟨fake_jobs, [("job-1", 0)], [("job-2", 86400)]⟩
        7862400 20).2.saved) ∧
    ((86400 : Int) = 7862400 - ninetyDays) ∧
    (("job-2", (86400 : Int)) ∈
      (list_offers ⟨fake_jobs, [("job-1", 0)], [("job-2", 86400)]⟩
        7862400 20).2.hidden) := by
  refine ⟨by decide, by decide, ?_, by decide, ?_⟩
  · exact ((expiry_boundary ⟨fake_jobs, [("job-1", 0)], [("job-2", 86400)]⟩
      7862400 0 20 0 "job-1" "" "" "" (by decide)).2.1 (by decide)).1
  · exact ((expiry_boundary ⟨fake_jobs, [("job-1", 0)], [("job-2", 86400)]⟩
      7862400 86400 20 0 "job-2" "" "" "" (by decide)).2.2.2 (by decide)).2.1
      (by decide)

/-- C4 (amended): listActive(0) returns the empty sequence; a negative
limit follows Python slicing and returns all but the last entries of the
visible list; a limit at least the number of visible entries returns all
of them. -/
theorem limit_edge_cases (s : Store) (now limit : Int) :
    ((limit = 0) → (list_offers s now limit).1 = []) ∧
    (limit < 0 → (list_offers s now limit).1 =
      (s.catalog.filter (fun j => !(excludedIn (purgedStore s now) j.id))).take
        ((s.catalog.filter
            (fun j => !(excludedIn (purgedStore s now) j.id))).length
          - (-limit).toNat)) ∧
    (((s.catalog.filter
          (fun j => !(excludedIn (purgedStore s now) j.id))).length : Int)
        ≤ limit →
      (list_offers s now limit).1 =
        s.catalog.filter (fun j => !(excludedIn (purgedStore s now) j.id))) := by
  refine ⟨?_, ?_, ?_⟩
  · rintro rfl
    rw [list_offers_fst_eq, pySliceTo_of_nonneg le_rfl]
    rfl
  · intro hneg
    rw [list_offers_fst_eq]
    unfold pySliceTo
    rw [if_neg (by omega)]
  · intro hle
    have h0 : (0 : Int) ≤ limit :=
      le_trans (Int.ofNat_nonneg _) hle
    rw [list_offers_fst_eq, pySliceTo_of_nonneg h0]
    exact List.take_of_length_le (by omega)

/-- Witness for C4's theorem: limit 0 yields the empty list, and limit
1000 on the startup store yields all 20 visible entries. -/
theorem limit_edge_cases_witness :
    ((list_offers initStore 0 0).1 = []) ∧
    ((((initStore.catalog.filter
          (fun j => !(excludedIn (purgedStore initStore 0) j.id))).length : Int)
        ≤ 1000) ∧
      (list_offers initStore 0 1000).1 =
        initStore.catalog.filter
          (fun j => !(excludedIn (purgedStore initStore 0) j.id))) :=
  ⟨(limit_edge_cases initStore 0 0).1 rfl,
   by decide, (limit_edge_cases initStore 0 1000).2.2 (by decide)⟩

/-- C4 as stated is false: limit -1 is nonpositive but the result is not
empty — Python slicing drops only the last visible entry, leaving 19. -/
theorem limit_negative_counterexample :
    ((-1 : Int) ≤ 0) ∧
    (list_offers initStore 0 (-1)).1.length = 19 ∧
    (list_offers initStore 0 (-1)).1 ≠ [] := by
  exact ⟨by decide, by decide, by decide⟩

/-- C5: save is idempotent up to timestamps, and symmetrically hide.  A
second save of the same id succeeds with the same message, overwrites the
timestamp with the newer one (most recent action wins), adds no entry (the
dict size is unchanged), leaves the other mapping untouched, and the id
stays excluded from any later read whose purge does not expire it. -/
theorem save_hide_idempotent (s : Store) (t1 t2 : Int) (k : String) :
    ((save_offer (save_offer s t1 k).2 t2 k).1 = "Job saved successfully") ∧
    ((save_offer (save_offer s t1 k).2 t2 k).2.saved.lookup k = some t2) ∧
    ((save_offer (save_offer s t1 k).2 t2 k).2.saved.length
      = (save_offer s t1 k).2.saved.length) ∧
    ((save_offer (save_offer s t1 k).2 t2 k).2.hidden
      = (save_offer s t1 k).2.hidden) ∧
    (∀ now limit : Int, ¬ t2 < now - ninetyDays →
      ∀ job ∈ (list_offers (save_offer (save_offer s t1 k).2 t2 k).2 now limit).1,
        job.id ≠ k) ∧
    ((hide_offer (hide_offer s t1 k).2 t2 k).1 = "Job hidden successfully") ∧
    ((hide_offer (hide_offer s t1 k).2 t2 k).2.hidden.lookup k = some t2) ∧
    ((hide_offer (hide_offer s t1 k).2 t2 k).2.hidden.length
      = (hide_offer s t1 k).2.hidden.length) ∧
    ((hide_offer (hide_offer s t1 k).2 t2 k).2.saved
      = (hide_offer s t1 k).2.saved) ∧
    (∀ now limit : Int, ¬ t2 < now - ninetyDays →
      ∀ job ∈ (list_offers (hide_offer (hide_offer s t1 k).2 t2 k).2 now limit).1,
        job.id ≠ k) := by
  refine ⟨rfl, lookup_setKey_self _ _ _,
    length_setKey_of_hasKey (hasKey_setKey_self _ _ _), rfl,
    ?_, rfl, lookup_setKey_self _ _ _,
    length_setKey_of_hasKey (hasKey_setKey_self _ _ _), rfl, ?_⟩
  · intro now limit hfresh job hjob hid
    rcases mem_list_offers hjob with ⟨_, ha, _⟩
    rw [hid] at ha
    have h1 : hasKey (purge (save_offer (save_offer s t1 k).2 t2 k).2.saved
        (now - ninetyDays)) k = true := hasKey_purge_setKey hfresh
    rw [ha] at h1
    exact Bool.false_ne_true h1
  · intro now limit hfresh job hjob hid
    rcases mem_list_offers hjob with ⟨_, _, hb⟩
    rw [hid] at hb
    have h1 : hasKey (purge (hide_offer (hide_offer s t1 k).2 t2 k).2.hidden
        (now - ninetyDays)) k = true := hasKey_purge_setKey hfresh
    rw [hb] at h1
    exact Bool.false_ne_true h1

/-- Witness for C5's theorem: after saving job-1 twice the timestamp is
the newer one, and a read within 90 days still hides job-1, so job-2 is
the first listed offer. -/
theorem save_hide_idempotent_witness :
    ((save_offer (save_offer initStore 1 "job-1").2 2 "job-1").2.saved.lookup
      "job-1" = some 2) ∧
    (¬ (2 : Int) < 2 - ninetyDays) ∧
    (mkJob 2 ∈
      (list_offers (save_offer (save_offer initStore 1 "job-1").2 2
        "job-1").2 2 30).1) ∧
    (mkJob 2).id ≠ "job-1" :=
  ⟨(save_hide_idempotent initStore 1 2 "job-1").2.1, by decide, by decide,
   (save_hide_idempotent initStore 1 2 "job-1").2.2.2.2.1 2 30 (by decide)
     (mkJob 2) (by decide)⟩

/-- C6: all four operations are total over their input domain: save and
hide succeed on any id without catalog-membership validation and record
it, and list and search accept any limit and any (possibly empty) filters,
always returning a selection of catalog entries. -/
theorem operations_total (s : Store) (now limit radius : Int)
    (k q loc pensum : String) :
    ((save_offer s now k).1 = "Job saved successfully") ∧
    ((hide_offer s now k).1 = "Job hidden successfully") ∧
    (hasKey (save_offer s now k).2.saved k = true) ∧
    (hasKey (hide_offer s now k).2.hidden k = true) ∧
    (list_offers s now limit).1.Sublist s.catalog ∧
    (search_offers s now q loc radius pensum limit).1.Sublist s.catalog := by
  refine ⟨rfl, rfl, hasKey_setKey_self _ _ _, hasKey_setKey_self _ _ _, ?_, ?_⟩
  · simp only [list_offers]
    exact (pySliceTo_sublist _ _).trans (List.filter_sublist _)
  · simp only [search_offers]
    exact (pySliceTo_sublist _ _).trans (List.filter_sublist _)

/-- C7: frame property.  No operation changes the catalog; save changes
only the saved entry of its id and leaves hidden untouched; hide changes
only the hidden entry of its id and leaves saved untouched; after save
then hide of the same id, the id is a key of both mappings. -/
theorem frame_conditions (s : Store) (now t1 t2 limit radius : Int)
    (k k' q loc pensum : String) (hne : k' ≠ k) :
    ((list_offers s now limit).2.catalog = s.catalog) ∧
    ((search_offers s now q loc radius pensum limit).2.catalog = s.catalog) ∧
    ((save_offer s now k).2.catalog = s.catalog) ∧
    ((hide_offer s now k).2.catalog = s.catalog) ∧
    ((save_offer s now k).2.hidden = s.hidden) ∧
    ((hide_offer s now k).2.saved = s.saved) ∧
    ((save_offer s now k).2.saved.lookup k = some now) ∧
    ((save_offer s now k).2.saved.lookup k' = s.saved.lookup k') ∧
    ((hide_offer s now k).2.hidden.lookup k = some now) ∧
    ((hide_offer s now k).2.hidden.lookup k' = s.hidden.lookup k') ∧
    (hasKey (hide_offer (save_offer s t1 k).2 t2 k).2.saved k = true) ∧
    (hasKey (hide_offer (save_offer s t1 k).2 t2 k).2.hidden k = true) :=
  ⟨rfl, rfl, rfl, rfl, rfl, rfl, lookup_setKey_self _ _ _,
   lookup_setKey_ne hne, lookup_setKey_self _ _ _, lookup_setKey_ne hne,
   hasKey_setKey_self _ _ _, hasKey_setKey_self _ _ _⟩

/-- Witness for C7's theorem: saving job-1 does not touch job-2's entry. -/
theorem frame_conditions_witness :
    (("job-2" : String) ≠ "job-1") ∧
    ((save_offer initStore 5 "job-1").2.saved.lookup "job-2"
      = initStore.saved.lookup "job-2") :=
  ⟨by decide,
    (frame_conditions initStore 5 0 0 10 0 "job-1" "job-2" "" "" ""
      (by decide)).2.2.2.2.2.2.2.1⟩

/-- C8: the radius and pensum parameters of search have no effect at all
on the result or on the state. -/
theorem radius_pensum_no_effect (s : Store) (now limit r1 r2 : Int)
    (q loc p1 p2 : String) :
    search_offers s now q loc r1 p1 limit
      = search_offers s now q loc r2 p2 limit := rfl

/-- C9: on the default catalog with empty exclusion state, searching for
"Sample Job 3" returns exactly the entry with id job-3, and searching for
"nonexistent-zzz" returns the empty sequence. -/
theorem default_catalog_search_examples :
    ((search_offers initStore 0 "Sample Job 3" "" 0 "" 10).1 = [mkJob 3]) ∧
    ((mkJob 3).id = "job-3") ∧
    ((search_offers initStore 0 "nonexistent-zzz" "" 0 "" 10).1 = []) :=
  ⟨by decide, rfl, by decide⟩

/-- C10: search with empty query and empty location is observationally
equivalent to listActive with the same limit: identical result sequence
and identical post-purge store. -/
theorem search_empty_equals_list_offers (s : Store) (now limit radius : Int)
    (pensum : String) :
    search_offers s now "" "" radius pensum limit
      = list_offers s now limit := by
  simp only [search_offers, list_offers]
  refine congrArg (fun l => (pySliceTo limit l, _)) ?_
  refine List.filter_congr fun job _ => ?_
  cases hs : hasKey (purge s.saved (now - ninetyDays)) job.id <;>
    cases hh : hasKey (purge s.hidden (now - ninetyDays)) job.id <;>
      simp [hs, hh]

end Jobivo
